import Mathlib

/-!
# Verification of the ignite storage engine core

Shallow embedding of the ignite repository (Go) in Lean 4.

Strings from the Go side are modelled as lists of byte values
(`List Nat`, each entry a byte code), since Go compares strings
bytewise. Machine integers (uint64, int64) are modelled as `Nat` / `Int`
with explicit bounds where overflow matters. Fallible operations return
`Option` / `Except`, and the filesystem effects of `storage.New` and
`Storage.Close` are modelled by passing in the outcome of each system
call explicitly.
-/

namespace Ignite

/-! ## Error model (pkg/errors)

`ErrorCode` mirrors the string constants of pkg/errors/codes.go that the
storage classifiers use. -/

inductive ErrorCode where
  | io                  -- "IO_ERROR"
  | invalidInput        -- "INVALID_INPUT"
  | internal            -- "INTERNAL_ERROR"
  | segmentCorrupted    -- "SEGMENT_CORRUPTED"
  | permissionDenied    -- "PERMISSION_DENIED"
  | diskFull            -- "DISK_FULL"
  | filesystemReadonly  -- "FILESYSTEM_READONLY"
  deriving DecidableEq, Repr

/-- The syscall errnos distinguished by the classifiers in
pkg/errors/errors.go. `otherErrno` stands for every other errno. -/
inductive Errno where
  | eacces
  | eperm
  | enospc
  | erofs
  | eio
  | otherErrno
  deriving DecidableEq, Repr

/-- An underlying Go error value as seen by the classifiers:
either an `*os.PathError` wrapping a `syscall.Errno`, a bare
`syscall.Errno`, or any other error value. -/
inductive SysErr where
  | pathErr (e : Errno)
  | errno (e : Errno)
  | otherErr
  deriving DecidableEq, Repr

/-- Models `os.IsPermission`: true when the error (directly or through
one level of `*os.PathError`) is `EACCES` or `EPERM`. -/
def isPermission : SysErr → Bool
  | .pathErr e => e = .eacces || e = .eperm
  | .errno e => e = .eacces || e = .eperm
  | .otherErr => false

/-- The part of a `StorageError` (pkg/errors/storage.go) that the
classification claims are about: the error code and the wrapped cause
(`baseError.cause`, returned by `Unwrap`). -/
structure StorageError where
  code : ErrorCode
  cause : SysErr
  deriving DecidableEq, Repr

/-- `errors.ClassifyDirectoryCreationError` (pkg/errors/errors.go):
permission check first via `os.IsPermission`, then a type assertion to
`*os.PathError` wrapping a `syscall.Errno` switched on ENOSPC / EROFS,
otherwise the generic IO code. The cause is always wrapped. -/
def ClassifyDirectoryCreationError (err : SysErr) : StorageError :=
  if isPermission err then
    { code := .permissionDenied, cause := err }
  else
    match err with
    | .pathErr .enospc => { code := .diskFull, cause := err }
    | .pathErr .erofs => { code := .filesystemReadonly, cause := err }
    | _ => { code := .io, cause := err }

/-- `errors.ClassifyFileOpenError` (pkg/errors/errors.go): identical
code structure to the directory-creation classifier. -/
def ClassifyFileOpenError (err : SysErr) : StorageError :=
  if isPermission err then
    { code := .permissionDenied, cause := err }
  else
    match err with
    | .pathErr .enospc => { code := .diskFull, cause := err }
    | .pathErr .erofs => { code := .filesystemReadonly, cause := err }
    | _ => { code := .io, cause := err }

/-- `errors.ClassifySyncError` (pkg/errors/errors.go): note that unlike
the other two classifiers this one has no `os.IsPermission` branch; it
only switches on ENOSPC / EROFS / EIO inside a `*os.PathError`, and the
EIO case carries the same IO code as the default branch. -/
def ClassifySyncError (err : SysErr) : StorageError :=
  match err with
  | .pathErr .enospc => { code := .diskFull, cause := err }
  | .pathErr .erofs => { code := .filesystemReadonly, cause := err }
  | .pathErr .eio => { code := .io, cause := err }
  | _ => { code := .io, cause := err }

/-! ## Options (pkg/options)

Strings here never get compared bytewise, so plain `String` is used for
the directory and name fields. The Go keyword-clashing field `Prefix`
is rendered `pfx`. -/

structure SegmentOpts where
  size : Nat            -- `Size uint64`
  directory : String    -- `Directory string`
  pfx : String          -- `Prefix string`
  deriving DecidableEq, Repr

structure Options where
  dataDir : String
  compactInterval : Nat   -- time.Duration in nanoseconds
  segmentOptions : SegmentOpts
  deriving DecidableEq, Repr

/-- `options.MinSegmentSize` = 512MB (pkg/options/defaults.go). -/
def MinSegmentSize : Nat := 512 * 1024 * 1024

/-- `options.MaxSegmentSize` = 4GB (pkg/options/defaults.go). -/
def MaxSegmentSize : Nat := 4 * 1024 * 1024 * 1024

/-- `options.DefaultSegmentSize` = 1GB (pkg/options/defaults.go). -/
def DefaultSegmentSize : Nat := 1 * 1024 * 1024 * 1024

/-- `options.DefaultCompactInterval` = 5h in nanoseconds. -/
def DefaultCompactInterval : Nat := 5 * 60 * 60 * 1000000000

/-- `options.defaultOptions` (pkg/options/defaults.go). -/
def defaultOptions : Options :=
  { dataDir := "/var/lib/ignitedb"
    compactInterval := DefaultCompactInterval
    segmentOptions :=
      { size := DefaultSegmentSize
        directory := "/segments"
        pfx := "segment" } }

/-- `options.WithSegmentSize` (applied to an `Options` value): updates
the segment size only when `size > MinSegmentSize && size < MaxSegmentSize`,
both strict. -/
def WithSegmentSize (size : Nat) (o : Options) : Options :=
  if MinSegmentSize < size ∧ size < MaxSegmentSize then
    { o with segmentOptions := { o.segmentOptions with size := size } }
  else
    o

/-! ## Index data model (internal/index, src/unnamed/part_000) -/

/-- `index.RecordPointer` (part_000): the in-memory locator. In Go the
`SegmentID` field is declared `uint16`, so a well-formed pointer can
only reference segment ids up to 65535; we model the field as a `Nat`
together with the well-formedness predicate below. -/
structure RecordPointer where
  timestamp : Int     -- int64
  offset : Int        -- int64
  entrySize : Nat     -- uint32
  valueSize : Nat     -- uint32
  key : String
  segmentID : Nat     -- uint16
  deriving DecidableEq, Repr

/-- Largest value representable in the `uint16` field
`RecordPointer.SegmentID`. -/
def uint16Max : Nat := 65535

/-- A `RecordPointer` is representable exactly when its segment id fits
in the uint16 field. -/
def RecordPointer.Representable (p : RecordPointer) : Prop :=
  p.segmentID ≤ uint16Max

instance (p : RecordPointer) : Decidable p.Representable := by
  unfold RecordPointer.Representable; infer_instance

/-! ## storage.New (src/unnamed/part_001)

The filesystem is abstracted by an environment recording the outcome of
each system call `storage.New` performs, in program order:
directory creation (`filesys.CreateDir`), segment discovery
(`seginfo.GetLastSegmentInfo`, which on success yields either `none`
for an empty directory or the id and on-disk size of the highest
segment), file open (`os.OpenFile`), the seek to end, and — on the
seek-failure path — the followup `file.Close`. -/

structure NewEnv where
  createDir : Option SysErr                        -- none = success
  discovery : Except SysErr (Option (Nat × Int))   -- (lastSegmentID, size)
  openFile : Option SysErr                         -- none = success
  seek : Option SysErr                             -- none = success
  closeAfterSeekErr : Option SysErr                -- none = close succeeded
  deriving Repr

/-- The distinct error returns of `storage.New` / `openSegmentFile`
(part_001), each wrapping its cause. -/
inductive NewError where
  | dirCreate (e : StorageError)       -- ClassifyDirectoryCreationError
  | discovery (cause : SysErr)         -- NewStorageError(err, IO, ...)
  | fileOpen (e : StorageError)        -- ClassifyFileOpenError
  | closeAfterSeek (cause : SysErr)    -- close failed after seek error
  | seek (cause : SysErr)              -- seek failed (close succeeded)
  deriving DecidableEq, Repr

/-- The fields of `storage.Storage` that `storage.New` establishes:
the active segment id, the recorded size (resume offset), whether a new
segment file was created (`shouldCreateNewSegment`), and the fact that
an open active segment handle is held. -/
structure StorageState where
  activeSegmentId : Nat
  size : Int
  createdNew : Bool
  segmentOpen : Bool
  deriving DecidableEq, Repr

/-- The three-way decision of `storage.New` lines 109–151: bootstrap
with id 1 when nothing was discovered, rotate to id+1 when the highest
segment is at or beyond the maximum, else resume it. Yields
(targetSegmentID, recorded size, shouldCreateNewSegment). -/
def newDecision (disc : Option (Nat × Int)) (maxSize : Int) : Nat × Int × Bool :=
  match disc with
  | none => (1, 0, true)
  | some (lastSegmentID, currentSize) =>
    if currentSize ≥ maxSize then
      (lastSegmentID + 1, 0, true)
    else
      (lastSegmentID, currentSize, false)

/-- `storage.New` (src/unnamed/part_001, lines 53–171) as a function of
the syscall outcomes and the configured maximum segment size
(`int64(config.Options.SegmentOptions.Size)`). Mirrors the source: any
failing step returns the corresponding error; otherwise the three-way
decision picks the target segment id and recorded size, and
`openSegmentFile` opens (creating if needed) and seeks to the end. -/
def Storage.New (env : NewEnv) (maxSize : Int) : Except NewError StorageState :=
  match env.createDir with
  | some e => .error (.dirCreate (ClassifyDirectoryCreationError e))
  | none =>
    match env.discovery with
    | .error e => .error (.discovery e)
    | .ok disc =>
      -- Decision: bootstrap / rotate-on-full / resume.
      let dec := newDecision disc maxSize
      -- openSegmentFile: open with O_CREATE|O_RDWR|O_APPEND, then seek.
      match env.openFile with
      | some e => .error (.fileOpen (ClassifyFileOpenError e))
      | none =>
        match env.seek with
        | some e =>
          match env.closeAfterSeekErr with
          | some ce => .error (.closeAfterSeek ce)
          | none => .error (.seek e)
        | none =>
          .ok { activeSegmentId := dec.1, size := dec.2.1,
                createdNew := dec.2.2, segmentOpen := true }

/-- A `NewEnv` in which every system call succeeds. -/
def NewEnv.allOk (disc : Option (Nat × Int)) : NewEnv :=
  { createDir := none, discovery := .ok disc, openFile := none,
    seek := none, closeAfterSeekErr := none }

/-! ## Storage.Close (src/unnamed/part_001, lines 175–241) -/

/-- Outcomes of the two system calls `Storage.Close` performs on the
active segment. -/
structure CloseEnv where
  sync : Option SysErr    -- File.Sync outcome, none = success
  close : Option SysErr   -- File.Close outcome, none = success
  deriving DecidableEq, Repr

/-- The observable file operations `Storage.Close` performs, in
order. -/
inductive FileAction where
  | syncFile
  | closeFile
  deriving DecidableEq, Repr

/-- Return value of `Storage.Close`. -/
inductive CloseResult where
  | ok                              -- nil error
  | errSegmentClosed                -- ErrSegmentClosed sentinel
  | syncFailed (e : StorageError)   -- ClassifySyncError(...)
  | closeFailed (cause : SysErr)    -- NewStorageError(err, IO, ...)
  deriving DecidableEq, Repr

/-- `Storage.Close` (part_001): CAS the closed flag; if already closed
return `ErrSegmentClosed`. Otherwise sync, and on sync error still
attempt close (logging any close error) but return the classified sync
error; on close error return an IO storage error; else nil. Returns
the result, the new value of the closed flag, and the ordered list of
file operations performed. -/
def Storage.Close (closed : Bool) (env : CloseEnv) :
    CloseResult × Bool × List FileAction :=
  if closed then
    (.errSegmentClosed, true, [])
  else
    match env.sync with
    | some e =>
      -- Sync failed: attempt close anyway, return the sync error.
      (.syncFailed (ClassifySyncError e), true, [.syncFile, .closeFile])
    | none =>
      match env.close with
      | some ce => (.closeFailed ce, true, [.syncFile, .closeFile])
      | none => (.ok, true, [.syncFile, .closeFile])

/-! ## Engine (src/internal/engine/engine.go) -/

/-- The engine state relevant to the claims: the storage subsystem and
the closed flag (false after `engine.New`). -/
structure Engine where
  storage : StorageState
  closed : Bool
  deriving DecidableEq, Repr

/-- `engine.New` (engine.go lines 57–86): index and compaction
construction cannot fail; storage construction failure is propagated
unchanged and no engine is returned; otherwise an engine wrapping the
storage with the closed flag false. -/
def Engine.New (env : NewEnv) (maxSize : Int) : Except NewError Engine :=
  match Storage.New env maxSize with
  | .error e => .error e
  | .ok s => .ok { storage := s, closed := false }

/-- `Engine.Close` (engine.go lines 91–102): CAS the engine closed
flag; if already closed return the `ErrEngineClosed` sentinel and touch
nothing; otherwise delegate to `Storage.Close`. The result is the
engine-level outcome, the new engine flag, the new storage flag, and
the file operations performed. -/
inductive EngineCloseResult where
  | errEngineClosed
  | fromStorage (r : CloseResult)
  deriving DecidableEq, Repr

def Engine.Close (engClosed stClosed : Bool) (env : CloseEnv) :
    EngineCloseResult × Bool × Bool × List FileAction :=
  if engClosed then
    (.errEngineClosed, true, stClosed, [])
  else
    let r := Storage.Close stClosed env
    (.fromStorage r.1, true, r.2.1, r.2.2)

/-! ## Index.Close (src/unnamed/part_000) -/

/-- Return value of `Index.Close`. -/
inductive IndexCloseResult where
  | ok
  | errIndexClosed
  deriving DecidableEq, Repr

/-- `Index.Close` (part_000 lines 174–192): CAS the closed flag; when
already closed return the `ErrIndexClosed` sentinel; otherwise clear the
record-pointer map (the shutdown action, reported as a Bool) and return
nil. -/
def Index.Close (closed : Bool) : IndexCloseResult × Bool × Bool :=
  if closed then
    (.errIndexClosed, true, false)
  else
    (.ok, true, true)

/-! ## Iterated close calls

`CompareAndSwap` makes each close call an atomic transition on the
closed flag, so any interleaving of concurrent callers linearizes to a
sequence of calls; `iterStep` runs `n` such calls from a start state
and collects the per-call results. -/

def iterStep {σ ρ : Type} (step : σ → σ × ρ) : σ → Nat → List ρ
  | _, 0 => []
  | s, n + 1 =>
    let r := step s
    r.2 :: iterStep step r.1 n

/-! ## seginfo (pkg/seginfo/seginfo.go)

Filenames are byte lists. Relevant byte codes: 95 = underscore,
46 = dot, 47 = slash, 48..57 = the digits. -/

/-- Little-endian decimal digits of `n` (digit values, not bytes),
computed with an explicit fuel argument; `fuel = n` always suffices
since the argument shrinks by division by 10. -/
def decAuxDigits : Nat → Nat → List Nat
  | 0, _ => []
  | fuel + 1, n => if n = 0 then [] else n % 10 :: decAuxDigits fuel (n / 10)

/-- Big-endian decimal digits of `n` (empty for 0). -/
def decDigits (n : Nat) : List Nat := (decAuxDigits n n).reverse

/-- The byte of a decimal digit. -/
def digitByte (d : Nat) : Nat := 48 + d

/-- The bytes Go prints for the verb `%d` on a nonnegative integer. -/
def decBytes (n : Nat) : List Nat := (decDigits n).map digitByte

/-- The bytes Go prints for the verb `%05d`: the decimal digits,
left-padded with zero bytes to width 5 (ids of six or more digits are
printed unpadded). -/
def pad5Bytes (n : Nat) : List Nat :=
  List.replicate (5 - (decBytes n).length) 48 ++ decBytes n

/-- The bytes of the string INVALID_PREFIX used by `GenerateName` when
the prefix is empty. -/
def invalidPfxMarker : List Nat :=
  [73, 78, 86, 65, 76, 73, 68, 95, 80, 82, 69, 70, 73, 88]

/-- `seginfo.GenerateName(id, prefix)` (seginfo.go lines 107–119):
`prefix_NNNNN_timestamp.seg` via `%s_%05d_%d.seg`, with the
INVALID_PREFIX marker substituted for an empty prefix. The timestamp
`time.Now().UnixNano()` is passed in as `ts`. -/
def GenerateName (pfxBytes : List Nat) (id ts : Nat) : List Nat :=
  (if pfxBytes = [] then invalidPfxMarker else pfxBytes) ++
    [95] ++ pad5Bytes id ++ [95] ++ decBytes ts ++ [46, 115, 101, 103]

/-- Bytewise lexicographic strict order on byte lists: exactly the
order `<` on Go strings, which `slices.Sort` uses in
`GetLastSegmentName`. -/
def goLt : List Nat → List Nat → Bool
  | [], [] => false
  | [], _ :: _ => true
  | _ :: _, [] => false
  | a :: as, b :: bs => if a < b then true else if b < a then false else goLt as bs

/-- `strings.Split(s, sep)` for a single-byte separator: the fields of
`l` between occurrences of `sep`; always non-empty. -/
def splitOn (sep : Nat) : List Nat → List (List Nat)
  | [] => [[]]
  | c :: cs =>
    match splitOn sep cs with
    | [] => [[c]]   -- unreachable: splitOn never returns []
    | p :: ps => if c = sep then [] :: p :: ps else (c :: p) :: ps

/-- Is the byte a decimal digit (strconv accepts exactly `0`–`9` for
base 10)? -/
def isDigitByte (b : Nat) : Bool := 48 ≤ b && b ≤ 57

/-- Value of a big-endian list of digit values. -/
def valBE : List Nat → Nat
  | [] => 0
  | d :: ds => d * 10 ^ ds.length + valBE ds

/-- Value of a little-endian list of digit values. -/
def ofLE : List Nat → Nat
  | [] => 0
  | d :: ds => d + 10 * ofLE ds

/-- Numeric value of a big-endian digit byte string. -/
def bytesVal (l : List Nat) : Nat := valBE (l.map (fun b => b - 48))

/-- `strconv.ParseUint(s, 10, 64)`: succeeds on a non-empty all-digit
string whose value fits in 64 bits. -/
def parseUint64 (l : List Nat) : Option Nat :=
  if l ≠ [] ∧ l.all isDigitByte ∧ bytesVal l < 2 ^ 64 then some (bytesVal l)
  else none

/-- `seginfo.ParseSegmentID(fullPath, prefix)` (seginfo.go lines
122–154): take the filename after the final path separator
(`filepath.Split`), require the prefix, trim it, cut at the first dot,
split the remainder on underscores, require at least three parts, and
parse part 1 as a uint64. -/
def ParseSegmentID (fullPath pfxBytes : List Nat) : Option Nat :=
  let filename := (splitOn 47 fullPath).getLastD []
  if pfxBytes.isPrefixOf filename then
    let withoutPfx := filename.drop pfxBytes.length
    let withoutExtension := (splitOn 46 withoutPfx).headD []
    let parts := splitOn 95 withoutExtension
    if 3 ≤ parts.length then parseUint64 (parts.getD 1 []) else none
  else none

/-! ## Entry codec

The repository does not yet contain the entry codec source (only its
contract in the specification), so it is modelled from the spec. -/

/-- Fixed-width little-endian byte serialization of `n` (Go
`encoding/binary` style): `w` bytes, low byte first. -/
def leBytes : Nat → Nat → List Nat
  | 0, _ => []
  | w + 1, n => n % 256 :: leBytes w (n / 256)

/-- Parse a little-endian byte list back to a number. -/
def fromLE : List Nat → Nat
  | [] => 0
  | b :: bs => b + 256 * fromLE bs

/-- Modelled from the spec: the entry format version stored in the
fixed header (the codec source is absent from the repository). -/
def entryVersion : Nat := 1

/-- Modelled from the spec: the reserved value-length sentinel that
marks a tombstone, distinguishing a deletion marker from a zero-length
value (the codec source is absent from the repository). -/
def tombstoneSentinel : Nat := 2 ^ 64 - 1

/-- Modelled from the spec: the integrity checksum over
timestamp+version+sizes+key+value; the particular function is not
fixed by the spec, a 32-bit byte sum is used (the codec source is
absent from the repository). -/
def checksum32 (l : List Nat) : Nat := l.foldl (· + ·) 0 % 2 ^ 32

/-- Modelled from the spec: the checksummed portion of an encoded
entry — timestamp (8 bytes), version (4), key length (8), value length
(8), then key and value bytes (the codec source is absent from the
repository). A tombstone stores the sentinel as value length and no
value bytes. -/
def entryBody (key : List Nat) (value : Option (List Nat)) (ts : Nat) : List Nat :=
  let vsField := match value with
    | none => tombstoneSentinel
    | some v => v.length
  leBytes 8 ts ++ leBytes 4 entryVersion ++ leBytes 8 key.length ++
    leBytes 8 vsField ++ key ++ value.getD []

/-- Modelled from the spec: `encode(key, value_or_tombstone, timestamp)
-> bytes` — a 32-byte fixed header (checksum 4, timestamp 8, version 4,
key length 8, value length 8) followed by key and value bytes (the
codec source is absent from the repository; the 32-byte header size
matches the `header_size_expected` detail in pkg/errors/storage.go). -/
def encode (key : List Nat) (value : Option (List Nat)) (ts : Nat) : List Nat :=
  leBytes 4 (checksum32 (entryBody key value ts)) ++ entryBody key value ts

/-- Modelled from the spec: full decode of an encoded entry — parse the
fixed header, check the version, the payload length and the checksum,
and return the key, the value (or `none` for a tombstone) and the
timestamp (the codec source is absent from the repository). -/
def decode (bytes : List Nat) : Option (List Nat × Option (List Nat) × Nat) :=
  if 32 ≤ bytes.length then
    let stored := fromLE (bytes.take 4)
    let rest := bytes.drop 4
    let ts := fromLE (rest.take 8)
    let rest2 := rest.drop 8
    let ver := fromLE (rest2.take 4)
    let rest3 := rest2.drop 4
    let keyLen := fromLE (rest3.take 8)
    let rest4 := rest3.drop 8
    let vsField := fromLE (rest4.take 8)
    let payload := rest4.drop 8
    let vLen := if vsField = tombstoneSentinel then 0 else vsField
    if ver = entryVersion ∧ payload.length = keyLen + vLen ∧
        stored = checksum32 rest then
      some (payload.take keyLen,
        if vsField = tombstoneSentinel then none else some (payload.drop keyLen),
        ts)
    else none
  else none

/-! ## Helper lemmas -/

/-- Once a step is at a fixed point, iterating it repeats one result. -/
theorem iterStep_fixed {σ ρ : Type} (step : σ → σ × ρ) (s : σ) (r : ρ)
    (h : step s = (s, r)) : ∀ m, iterStep step s m = List.replicate m r := by
  intro m
  induction m with
  | zero => rfl
  | succ m ih => simp [iterStep, h, List.replicate, ih]

/-- One transition into an absorbing state: the first call yields its
own result, all later calls repeat the absorbed result. -/
theorem iterStep_absorb {σ ρ : Type} (step : σ → σ × ρ) (s0 s1 : σ) (r1 rs : ρ)
    (h0 : step s0 = (s1, r1)) (h1 : step s1 = (s1, rs)) (n : Nat) :
    iterStep step s0 (n + 1) = r1 :: List.replicate n rs := by
  simp [iterStep, h0, iterStep_fixed step s1 rs h1 n]

/-! ## Theorems for the claims -/

/-- C10: `WithSegmentSize(size)` updates the configured segment size
iff `MinSegmentSize < size < MaxSegmentSize` with strict inequalities;
requesting exactly the 512MB minimum or 4GB maximum leaves the default
options (with their 1GB segment size) unchanged, and the setter leaves
every other option field untouched. -/
theorem withSegmentSize_spec (o : Options) (size : Nat) :
    (MinSegmentSize < size ∧ size < MaxSegmentSize →
      WithSegmentSize size o =
        { o with segmentOptions := { o.segmentOptions with size := size } }) ∧
    (¬(MinSegmentSize < size ∧ size < MaxSegmentSize) →
      WithSegmentSize size o = o) ∧
    WithSegmentSize MinSegmentSize defaultOptions = defaultOptions ∧
    WithSegmentSize MaxSegmentSize defaultOptions = defaultOptions ∧
    defaultOptions.segmentOptions.size = 1024 * 1024 * 1024 ∧
    (WithSegmentSize size o).dataDir = o.dataDir ∧
    (WithSegmentSize size o).compactInterval = o.compactInterval ∧
    (WithSegmentSize size o).segmentOptions.directory = o.segmentOptions.directory ∧
    (WithSegmentSize size o).segmentOptions.pfx = o.segmentOptions.pfx := by
  refine ⟨fun h => ?_, fun h => ?_, by decide, by decide, by decide, ?_, ?_, ?_, ?_⟩ <;>
    unfold WithSegmentSize <;> split <;> simp_all

/-- Witness for C10 at a concrete size strictly inside the bounds. -/
theorem withSegmentSize_spec_witness :
    WithSegmentSize (MinSegmentSize + 1) defaultOptions =
      { defaultOptions with segmentOptions :=
        { defaultOptions.segmentOptions with size := MinSegmentSize + 1 } } :=
  (withSegmentSize_spec defaultOptions (MinSegmentSize + 1)).1 (by decide)

/-- C6 counterexample: a permission error (PathError wrapping EACCES)
fed to `ClassifySyncError` is classified with the generic IO code, not
PERMISSION_DENIED, refuting the claim for the sync classifier. -/
theorem classifySyncError_permission_counterexample :
    isPermission (SysErr.pathErr .eacces) = true ∧
    (ClassifySyncError (SysErr.pathErr .eacces)).code = .io ∧
    (ClassifySyncError (SysErr.pathErr .eacces)).code ≠ .permissionDenied := by
  decide

/-- C6 (amended): the directory-creation and file-open classifiers
return PERMISSION_DENIED on permission errors, DISK_FULL on a PathError
wrapping ENOSPC, FILESYSTEM_READONLY on a PathError wrapping EROFS, and
the generic IO code otherwise; the sync classifier has no permission
branch — it refines only PathError ENOSPC / EROFS and returns the IO
code for everything else, permission errors included; all three always
preserve the original error as the wrapped cause. -/
theorem classifiers_spec (e : SysErr) :
    (ClassifyDirectoryCreationError e).cause = e ∧
    (ClassifyFileOpenError e).cause = e ∧
    (ClassifySyncError e).cause = e ∧
    (isPermission e = true →
      (ClassifyDirectoryCreationError e).code = .permissionDenied ∧
      (ClassifyFileOpenError e).code = .permissionDenied) ∧
    (e = .pathErr .enospc →
      (ClassifyDirectoryCreationError e).code = .diskFull ∧
      (ClassifyFileOpenError e).code = .diskFull ∧
      (ClassifySyncError e).code = .diskFull) ∧
    (e = .pathErr .erofs →
      (ClassifyDirectoryCreationError e).code = .filesystemReadonly ∧
      (ClassifyFileOpenError e).code = .filesystemReadonly ∧
      (ClassifySyncError e).code = .filesystemReadonly) ∧
    (isPermission e = false → e ≠ .pathErr .enospc → e ≠ .pathErr .erofs →
      (ClassifyDirectoryCreationError e).code = .io ∧
      (ClassifyFileOpenError e).code = .io) ∧
    (e ≠ .pathErr .enospc → e ≠ .pathErr .erofs →
      (ClassifySyncError e).code = .io) := by
  cases e with
  | pathErr er => cases er <;> decide
  | errno er => cases er <;> decide
  | otherErr => decide

/-- Witness for C6 discharging the permission hypothesis at EACCES. -/
theorem classifiers_spec_witness :
    (ClassifyDirectoryCreationError (SysErr.pathErr .eacces)).code =
      .permissionDenied :=
  ((classifiers_spec (SysErr.pathErr .eacces)).2.2.2.1 (by decide)).1

/-- C1: startup segment selection in `storage.New` — with no existing
segment the storage bootstraps with id 1, size 0 and creates the file;
with a highest segment at or beyond the configured maximum size a new
segment with the next id and size 0 is created; otherwise the highest
segment is resumed with its on-disk size as the recorded offset. -/
theorem storageNew_selection (maxSize : Int) :
    Storage.New (NewEnv.allOk none) maxSize =
      .ok { activeSegmentId := 1, size := 0, createdNew := true, segmentOpen := true } ∧
    (∀ lastId sz, sz ≥ maxSize →
      Storage.New (NewEnv.allOk (some (lastId, sz))) maxSize =
        .ok { activeSegmentId := lastId + 1, size := 0,
              createdNew := true, segmentOpen := true }) ∧
    (∀ lastId sz, sz < maxSize →
      Storage.New (NewEnv.allOk (some (lastId, sz))) maxSize =
        .ok { activeSegmentId := lastId, size := sz,
              createdNew := false, segmentOpen := true }) := by
  refine ⟨rfl, fun lastId sz h => ?_, fun lastId sz h => ?_⟩
  · simp [Storage.New, NewEnv.allOk, newDecision, if_pos h]
  · simp [Storage.New, NewEnv.allOk, newDecision, if_neg (not_le.mpr h)]

/-- Witness for C1: resuming a half-full segment 3 of size 10 with
maximum 100. -/
theorem storageNew_selection_witness :
    Storage.New (NewEnv.allOk (some (3, 10))) 100 =
      .ok { activeSegmentId := 3, size := 10,
            createdNew := false, segmentOpen := true } :=
  (storageNew_selection 100).2.2 3 10 (by decide)

/-- C3 evaluation: with the highest on-disk segment at id 65535 (the
uint16 maximum of `RecordPointer.SegmentID`) and full, `storage.New`
does not reject the write path — it succeeds and installs active
segment id 65536, which no representable `RecordPointer` can refer
to. -/
theorem storageNew_exceeds_uint16 :
    Storage.New (NewEnv.allOk (some (65535, 1073741824))) 1073741824 =
      .ok { activeSegmentId := 65536, size := 0,
            createdNew := true, segmentOpen := true } ∧
    ¬ (65536 ≤ uint16Max) ∧
    ∀ p : RecordPointer, p.segmentID = 65536 → ¬ p.Representable := by
  refine ⟨rfl, by decide, fun p hp => ?_⟩
  simp [RecordPointer.Representable, hp, uint16Max]

/-- C5: startup is fatal on any I/O failure — if directory creation,
segment discovery, file open or the seek fails, `storage.New` returns
an error and `engine.New` propagates it unchanged, returning no engine;
conversely an engine is only ever constructed around a successfully
opened active segment. -/
theorem startup_failures_fatal (env : NewEnv) (maxSize : Int) :
    ((env.createDir ≠ none ∨ (∃ e, env.discovery = .error e) ∨
        env.openFile ≠ none ∨ env.seek ≠ none) →
      ∃ e, Storage.New env maxSize = .error e ∧
        Engine.New env maxSize = .error e) ∧
    (∀ eng, Engine.New env maxSize = .ok eng →
      Storage.New env maxSize = .ok eng.storage ∧
      eng.storage.segmentOpen = true ∧ eng.closed = false) := by
  obtain ⟨cd, disc, op, sk, cs⟩ := env
  constructor
  · cases cd <;> cases disc <;> cases op <;> cases sk <;> cases cs <;>
      rintro (h | ⟨e, h⟩ | h | h) <;>
      first
        | exact ⟨_, rfl, rfl⟩
        | simp_all
  · intro eng h
    cases cd <;> cases disc <;> cases op <;> cases sk <;> cases cs <;>
      simp_all [Storage.New, Engine.New] <;>
      subst h <;> exact ⟨rfl, rfl, rfl⟩

/-- Witness for C5: a failing seek is fatal. -/
theorem startup_failures_fatal_witness :
    ∃ e, Storage.New
        { createDir := none, discovery := .ok none, openFile := none,
          seek := some .otherErr, closeAfterSeekErr := none } 100 = .error e ∧
      Engine.New
        { createDir := none, discovery := .ok none, openFile := none,
          seek := some .otherErr, closeAfterSeekErr := none } 100 = .error e :=
  (startup_failures_fatal
    { createDir := none, discovery := .ok none, openFile := none,
      seek := some .otherErr, closeAfterSeekErr := none } 100).1
    (Or.inr (Or.inr (Or.inr (by decide))))

/-- C4: on an open storage, `Storage.Close` always syncs the active
segment before closing it (the action trace is sync then close, for
every outcome); when the sync fails the close is still attempted but
the classified sync error is returned; when only the close fails an IO
storage error is returned, and otherwise nil; `Engine.Close` on an open
engine delegates the shutdown to `Storage.Close`. -/
theorem storageClose_sync_before_close (env : CloseEnv) :
    (Storage.Close false env).2.2 = [.syncFile, .closeFile] ∧
    (∀ e, env.sync = some e →
      (Storage.Close false env).1 = .syncFailed (ClassifySyncError e)) ∧
    (env.sync = none → ∀ ce, env.close = some ce →
      (Storage.Close false env).1 = .closeFailed ce) ∧
    (env.sync = none → env.close = none →
      (Storage.Close false env).1 = .ok) ∧
    (∀ stClosed, Engine.Close false stClosed env =
      (.fromStorage (Storage.Close stClosed env).1, true,
        (Storage.Close stClosed env).2.1, (Storage.Close stClosed env).2.2)) := by
  obtain ⟨sy, cl⟩ := env
  refine ⟨?_, ?_, ?_, ?_, ?_⟩ <;>
    cases sy <;> cases cl <;> simp_all [Storage.Close, Engine.Close]

/-- Witness for C4: a failing sync yields the classified sync error
after attempting the close. -/
theorem storageClose_sync_before_close_witness :
    (Storage.Close false { sync := some (SysErr.pathErr .enospc), close := none }).1 =
      .syncFailed (ClassifySyncError (SysErr.pathErr .enospc)) :=
  (storageClose_sync_before_close
    { sync := some (SysErr.pathErr .enospc), close := none }).2.1
    (SysErr.pathErr .enospc) rfl

/-- C8: close is effective exactly once for Index, Storage and Engine —
linearizing the atomic compare-and-swap, any sequence of n+1 close
calls starting open performs the shutdown exactly on the first call
(map clear for the index, sync+close of the active segment for storage
and engine) and every later call returns the corresponding
closed-sentinel with no further shutdown action. -/
theorem close_effective_once (env : CloseEnv) (n : Nat) :
    iterStep (fun c =>
        ((Index.Close c).2.1, ((Index.Close c).1, (Index.Close c).2.2))) false (n + 1) =
      (.ok, true) :: List.replicate n (.errIndexClosed, false) ∧
    iterStep (fun c =>
        ((Storage.Close c env).2.1,
          ((Storage.Close c env).1, (Storage.Close c env).2.2))) false (n + 1) =
      ((Storage.Close false env).1, [.syncFile, .closeFile]) ::
        List.replicate n (.errSegmentClosed, []) ∧
    iterStep (fun s =>
        (((Engine.Close s.1 s.2 env).2.1, (Engine.Close s.1 s.2 env).2.2.1),
          ((Engine.Close s.1 s.2 env).1, (Engine.Close s.1 s.2 env).2.2.2)))
        (false, false) (n + 1) =
      (.fromStorage (Storage.Close false env).1, [.syncFile, .closeFile]) ::
        List.replicate n (.errEngineClosed, []) := by
  refine ⟨?_, ?_, ?_⟩
  · exact iterStep_absorb
      (fun c => ((Index.Close c).2.1, ((Index.Close c).1, (Index.Close c).2.2)))
      false true (.ok, true) (.errIndexClosed, false) rfl rfl n
  · exact iterStep_absorb
      (fun c => ((Storage.Close c env).2.1,
        ((Storage.Close c env).1, (Storage.Close c env).2.2)))
      false true ((Storage.Close false env).1, [.syncFile, .closeFile])
      (.errSegmentClosed, [])
      (by obtain ⟨sy, cl⟩ := env; cases sy <;> cases cl <;> rfl) rfl n
  · exact iterStep_absorb
      (fun s => (((Engine.Close s.1 s.2 env).2.1, (Engine.Close s.1 s.2 env).2.2.1),
        ((Engine.Close s.1 s.2 env).1, (Engine.Close s.1 s.2 env).2.2.2)))
      (false, false) (true, true)
      (.fromStorage (Storage.Close false env).1, [.syncFile, .closeFile])
      (.errEngineClosed, [])
      (by obtain ⟨sy, cl⟩ := env; cases sy <;> cases cl <;> rfl) rfl n

/-! ## Decimal formatting lemmas -/

theorem valBE_append (xs ys : List Nat) :
    valBE (xs ++ ys) = valBE xs * 10 ^ ys.length + valBE ys := by
  induction xs with
  | nil => simp [valBE]
  | cons d xs ih =>
    simp only [List.cons_append, valBE, List.append_eq, List.length_append, ih]
    ring

theorem valBE_replicate_zero (k : Nat) (l : List Nat) :
    valBE (List.replicate k 0 ++ l) = valBE l := by
  induction k with
  | zero => simp
  | succ k ih => simpa [List.replicate, valBE] using ih

theorem valBE_lt_pow (l : List Nat) (h : ∀ d ∈ l, d < 10) :
    valBE l < 10 ^ l.length := by
  induction l with
  | nil => simp [valBE]
  | cons d ds ih =>
    have hd : d < 10 := h d (by simp)
    have hds := ih (fun x hx => h x (by simp [hx]))
    calc valBE (d :: ds) = d * 10 ^ ds.length + valBE ds := rfl
      _ < d * 10 ^ ds.length + 10 ^ ds.length := by omega
      _ = (d + 1) * 10 ^ ds.length := by ring
      _ ≤ 10 * 10 ^ ds.length := Nat.mul_le_mul_right _ (by omega)
      _ = 10 ^ (d :: ds).length := by rw [List.length_cons]; ring

theorem valBE_reverse (l : List Nat) : valBE l.reverse = ofLE l := by
  induction l with
  | nil => rfl
  | cons d ds ih =>
    simp only [List.reverse_cons, valBE_append, ih, ofLE, valBE,
      List.length_cons, List.length_nil]
    ring

theorem decAuxDigits_ofLE : ∀ fuel n, n ≤ fuel → ofLE (decAuxDigits fuel n) = n := by
  intro fuel
  induction fuel with
  | zero => intro n h; interval_cases n; rfl
  | succ fuel ih =>
    intro n h
    by_cases h0 : n = 0
    · simp [decAuxDigits, h0, ofLE]
    · have hdiv : n / 10 ≤ fuel := by
        have hlt : n / 10 < n := Nat.div_lt_self (Nat.pos_of_ne_zero h0) (by omega)
        omega
      simp only [decAuxDigits, h0, if_false, ofLE, ih _ hdiv]
      omega

theorem decAuxDigits_lt : ∀ fuel n d, d ∈ decAuxDigits fuel n → d < 10 := by
  intro fuel
  induction fuel with
  | zero => intro n d h; simp [decAuxDigits] at h
  | succ fuel ih =>
    intro n d h
    by_cases h0 : n = 0
    · simp [decAuxDigits, h0] at h
    · simp only [decAuxDigits, h0, if_false, List.mem_cons] at h
      rcases h with h | h
      · omega
      · exact ih _ _ h

theorem decAuxDigits_length : ∀ fuel n k, n < 10 ^ k →
    (decAuxDigits fuel n).length ≤ k := by
  intro fuel
  induction fuel with
  | zero => intro n k _; simp [decAuxDigits]
  | succ fuel ih =>
    intro n k hk
    by_cases h0 : n = 0
    · simp [decAuxDigits, h0]
    · cases k with
      | zero => simp at hk; omega
      | succ k =>
        have hdiv : n / 10 < 10 ^ k := by
          rw [Nat.div_lt_iff_lt_mul (by omega)]
          calc n < 10 ^ (k + 1) := hk
            _ = 10 ^ k * 10 := by ring
        simp only [decAuxDigits, h0, if_false, List.length_cons]
        exact Nat.succ_le_succ (ih _ _ hdiv)

theorem decDigits_val (n : Nat) : valBE (decDigits n) = n := by
  rw [decDigits, valBE_reverse, decAuxDigits_ofLE n n le_rfl]

theorem decDigits_lt (n : Nat) : ∀ d ∈ decDigits n, d < 10 := by
  intro d hd
  rw [decDigits, List.mem_reverse] at hd
  exact decAuxDigits_lt n n d hd

theorem decDigits_length_le (n k : Nat) (h : n < 10 ^ k) :
    (decDigits n).length ≤ k := by
  rw [decDigits, List.length_reverse]
  exact decAuxDigits_length n n k h

theorem pad5Bytes_eq (n : Nat) :
    pad5Bytes n =
      (List.replicate (5 - (decDigits n).length) 0 ++ decDigits n).map digitByte := by
  simp [pad5Bytes, decBytes, List.map_replicate, digitByte]

theorem digitByte_unmap (l : List Nat) :
    (l.map digitByte).map (fun b => b - 48) = l := by
  induction l with
  | nil => rfl
  | cons d ds ih => simp [digitByte, ih]

theorem goLt_append_same (p x y : List Nat) :
    goLt (p ++ x) (p ++ y) = goLt x y := by
  induction p with
  | nil => rfl
  | cons a p ih => simp [goLt, lt_irrefl, ih]

theorem goLt_digits (as : List Nat) : ∀ (bs s1 s2 : List Nat),
    as.length = bs.length → (∀ d ∈ as, d < 10) → (∀ d ∈ bs, d < 10) →
    valBE as < valBE bs →
    goLt (as.map digitByte ++ s1) (bs.map digitByte ++ s2) = true := by
  induction as with
  | nil =>
    intro bs s1 s2 hlen _ _ hv
    rw [List.eq_nil_of_length_eq_zero hlen.symm] at hv
    simp [valBE] at hv
  | cons a as ih =>
    intro bs s1 s2 hlen ha hb hv
    cases bs with
    | nil => simp at hlen
    | cons b bs =>
      have hlen' : as.length = bs.length := by simpa using hlen
      rcases lt_trichotomy a b with h | h | h
      · have : digitByte a < digitByte b := by simp [digitByte]; omega
        simp [goLt, this]
      · subst h
        have hv' : valBE as < valBE bs := by
          simp only [valBE, hlen'] at hv
          omega
        simpa [goLt] using
          ih bs s1 s2 hlen' (fun d hd => ha d (by simp [hd]))
            (fun d hd => hb d (by simp [hd])) hv'
      · exfalso
        have h1 : valBE bs < 10 ^ bs.length :=
          valBE_lt_pow bs (fun d hd => hb d (by simp [hd]))
        have h2 : valBE (b :: bs) < (b + 1) * 10 ^ bs.length := by
          calc valBE (b :: bs) = b * 10 ^ bs.length + valBE bs := rfl
            _ < b * 10 ^ bs.length + 10 ^ bs.length := by omega
            _ = (b + 1) * 10 ^ bs.length := by ring
        have h3 : (b + 1) * 10 ^ bs.length ≤ a * 10 ^ bs.length :=
          Nat.mul_le_mul_right _ (by omega)
        have h4 : a * 10 ^ as.length ≤ valBE (a :: as) := Nat.le_add_right _ _
        rw [hlen'] at h4
        omega

/-- C2 counterexample: with prefix "segment" and ids 99999 < 100000,
the generated filenames compare in the opposite order to the numeric
ids (`%05d` stops zero-padding at six digits), so lexicographically
sorted discovery would pick the id-99999 file as "last", refuting the
claim as stated for arbitrary id pairs. -/
theorem generateName_order_counterexample :
    goLt (GenerateName [115, 101, 103, 109, 101, 110, 116] 99999 1000)
        (GenerateName [115, 101, 103, 109, 101, 110, 116] 100000 1001) = false ∧
    goLt (GenerateName [115, 101, 103, 109, 101, 110, 116] 100000 1001)
        (GenerateName [115, 101, 103, 109, 101, 110, 116] 99999 1000) = true := by
  decide

/-- C2 (amended): for segment ids i < j both below 100000 (five decimal
digits, where `%05d` does pad), any fixed prefix and any timestamps,
the generated filenames compare bytewise-lexicographically in the same
order as the numeric ids, so sorting and taking the last filename picks
the highest id within that range. -/
theorem generateName_order (p : List Nat) (i j t1 t2 : Nat)
    (hij : i < j) (hj : j < 100000) :
    goLt (GenerateName p i t1) (GenerateName p j t2) = true := by
  have hi : i < 100000 := lt_trans hij hj
  have li : (decDigits i).length ≤ 5 := decDigits_length_le i 5 (by norm_num [hi])
  have lj : (decDigits j).length ≤ 5 := decDigits_length_le j 5 (by norm_num [hj])
  unfold GenerateName
  simp only [List.append_assoc, List.singleton_append]
  rw [goLt_append_same]
  simp only [goLt, lt_irrefl, if_false]
  rw [pad5Bytes_eq i, pad5Bytes_eq j]
  apply goLt_digits
  · simp only [List.length_append, List.length_replicate]
    omega
  · intro d hd
    rcases List.mem_append.mp hd with h | h
    · rw [List.eq_of_mem_replicate h]; omega
    · exact decDigits_lt i d h
  · intro d hd
    rcases List.mem_append.mp hd with h | h
    · rw [List.eq_of_mem_replicate h]; omega
    · exact decDigits_lt j d h
  · rw [valBE_replicate_zero, valBE_replicate_zero, decDigits_val, decDigits_val]
    exact hij

/-- Witness for C2 at ids 1 < 2 with prefix "seg". -/
theorem generateName_order_witness :
    goLt (GenerateName [115, 101, 103] 1 5) (GenerateName [115, 101, 103] 2 6) = true :=
  generateName_order [115, 101, 103] 1 2 5 6 (by decide) (by decide)

/-! ## splitOn and parsing lemmas -/

theorem splitOn_ne_nil (sep : Nat) (l : List Nat) : splitOn sep l ≠ [] := by
  cases l with
  | nil => simp [splitOn]
  | cons c cs =>
    rcases h : splitOn sep cs with _ | ⟨p, ps⟩
    · simp [splitOn, h]
    · simp only [splitOn, h]
      split <;> simp

theorem splitOn_cons_sep (sep : Nat) (l : List Nat) :
    splitOn sep (sep :: l) = [] :: splitOn sep l := by
  rcases h : splitOn sep l with _ | ⟨p, ps⟩
  · exact absurd h (splitOn_ne_nil sep l)
  · simp [splitOn, h]

theorem splitOn_no_sep (sep : Nat) (l : List Nat) (h : sep ∉ l) :
    splitOn sep l = [l] := by
  induction l with
  | nil => rfl
  | cons c cs ih =>
    have hc : ¬(c = sep) := fun he => h (by simp [he])
    have hcs : sep ∉ cs := fun hm => h (by simp [hm])
    simp [splitOn, ih hcs, hc]

theorem splitOn_append_sep (sep : Nat) (xs ys : List Nat) (h : sep ∉ xs) :
    splitOn sep (xs ++ sep :: ys) = xs :: splitOn sep ys := by
  induction xs with
  | nil => simpa using splitOn_cons_sep sep ys
  | cons c xs ih =>
    have hc : ¬(c = sep) := fun he => h (by simp [he])
    have hxs : sep ∉ xs := fun hm => h (by simp [hm])
    simp [splitOn, ih hxs, hc]

theorem pad5Bytes_mem (n b : Nat) (h : b ∈ pad5Bytes n) : 48 ≤ b ∧ b ≤ 57 := by
  rw [pad5Bytes_eq] at h
  rcases List.mem_map.mp h with ⟨d, hd, rfl⟩
  rcases List.mem_append.mp hd with h | h
  · rw [List.eq_of_mem_replicate h]; simp [digitByte]
  · have := decDigits_lt n d h
    simp only [digitByte]
    omega

theorem decBytes_mem (n b : Nat) (h : b ∈ decBytes n) : 48 ≤ b ∧ b ≤ 57 := by
  rcases List.mem_map.mp h with ⟨d, hd, rfl⟩
  have := decDigits_lt n d hd
  simp only [digitByte]
  omega

theorem pad5Bytes_length (n : Nat) :
    (pad5Bytes n).length = (5 - (decBytes n).length) + (decBytes n).length := by
  simp [pad5Bytes]

theorem bytesVal_pad5 (n : Nat) : bytesVal (pad5Bytes n) = n := by
  rw [bytesVal, pad5Bytes_eq, digitByte_unmap, valBE_replicate_zero, decDigits_val]

theorem parseUint64_pad5 (n : Nat) (h : n < 2 ^ 64) :
    parseUint64 (pad5Bytes n) = some n := by
  have hne : pad5Bytes n ≠ [] := by
    apply List.ne_nil_of_length_pos
    rw [pad5Bytes_length]
    omega
  have hall : (pad5Bytes n).all isDigitByte = true := by
    rw [List.all_eq_true]
    intro b hb
    have := pad5Bytes_mem n b hb
    simp only [isDigitByte, decide_eq_true_eq, Bool.and_eq_true]
    omega
  rw [parseUint64, if_pos ⟨hne, hall, by rw [bytesVal_pad5]; exact h⟩, bytesVal_pad5]

/-- C9 counterexample: with the non-empty prefix "a/b" (containing the
path separator), `ParseSegmentID` applied to the generated filename
fails — `filepath.Split` keeps only the part after the slash, which no
longer bears the prefix — refuting the claim for arbitrary non-empty
prefixes. -/
theorem parseSegmentID_generateName_counterexample :
    ParseSegmentID (GenerateName [97, 47, 98] 1 2) [97, 47, 98] = none := by
  decide

/-- C9 (amended): for every segment id (any uint64) and every
non-empty prefix free of the path separator, parsing the generated
filename returns exactly the id with no error, regardless of the
embedded nanosecond timestamp. -/
theorem parseSegmentID_generateName (p : List Nat) (id ts : Nat)
    (hp : p ≠ []) (hs : 47 ∉ p) (hid : id < 2 ^ 64) :
    ParseSegmentID (GenerateName p id ts) p = some id := by
  have hname : GenerateName p id ts =
      p ++ (95 :: (pad5Bytes id ++ (95 :: (decBytes ts ++ [46, 115, 101, 103])))) := by
    simp [GenerateName, hp, List.append_assoc]
  have h47 : 47 ∉ GenerateName p id ts := by
    rw [hname]
    intro hmem
    rcases List.mem_append.mp hmem with h | h
    · exact hs h
    rcases List.mem_cons.mp h with h | h
    · omega
    rcases List.mem_append.mp h with h | h
    · exact absurd (pad5Bytes_mem id 47 h) (by omega)
    rcases List.mem_cons.mp h with h | h
    · omega
    rcases List.mem_append.mp h with h | h
    · exact absurd (decBytes_mem ts 47 h) (by omega)
    · simp at h
  have hpfx : p.isPrefixOf (GenerateName p id ts) = true := by
    rw [hname, List.isPrefixOf_iff_prefix]
    exact List.prefix_append p _
  rw [ParseSegmentID]
  rw [splitOn_no_sep 47 _ h47]
  simp only [List.getLastD_cons, List.getLastD_nil]
  rw [if_pos hpfx, hname, List.drop_left]
  have hR : 95 :: (pad5Bytes id ++ (95 :: (decBytes ts ++ [46, 115, 101, 103]))) =
      (95 :: (pad5Bytes id ++ (95 :: decBytes ts))) ++ (46 :: [115, 101, 103]) := by
    simp [List.append_assoc]
  have h46 : 46 ∉ 95 :: (pad5Bytes id ++ (95 :: decBytes ts)) := by
    intro hmem
    rcases List.mem_cons.mp hmem with h | h
    · omega
    rcases List.mem_append.mp h with h | h
    · exact absurd (pad5Bytes_mem id 46 h) (by omega)
    rcases List.mem_cons.mp h with h | h
    · omega
    · exact absurd (decBytes_mem ts 46 h) (by omega)
  rw [hR, splitOn_append_sep 46 _ _ h46]
  simp only [List.headD_cons]
  have h95a : 95 ∉ pad5Bytes id := by
    intro h
    exact absurd (pad5Bytes_mem id 95 h) (by omega)
  have h95b : 95 ∉ decBytes ts := by
    intro h
    exact absurd (decBytes_mem ts 95 h) (by omega)
  rw [splitOn_cons_sep, splitOn_append_sep 95 _ _ h95a, splitOn_no_sep 95 _ h95b]
  rw [if_pos (by simp)]
  simpa using parseUint64_pad5 id hid

/-- Witness for C9 with prefix "seg", id 7, timestamp 123. -/
theorem parseSegmentID_generateName_witness :
    ParseSegmentID (GenerateName [115, 101, 103] 7 123) [115, 101, 103] = some 7 :=
  parseSegmentID_generateName [115, 101, 103] 7 123 (by decide) (by decide) (by decide)

/-! ## Codec lemmas -/

theorem leBytes_length (w : Nat) : ∀ n, (leBytes w n).length = w := by
  induction w with
  | zero => intro n; rfl
  | succ w ih => intro n; simp [leBytes, ih]

theorem fromLE_leBytes (w : Nat) : ∀ n, n < 256 ^ w → fromLE (leBytes w n) = n := by
  induction w with
  | zero => intro n h; interval_cases n; rfl
  | succ w ih =>
    intro n h
    have hdiv : n / 256 < 256 ^ w := by
      rw [Nat.div_lt_iff_lt_mul (by omega)]
      calc n < 256 ^ (w + 1) := h
        _ = 256 ^ w * 256 := by ring
    simp only [leBytes, fromLE, ih _ hdiv]
    omega

theorem checksum32_lt (l : List Nat) : checksum32 l < 256 ^ 4 := by
  have h : checksum32 l < 2 ^ 32 := Nat.mod_lt _ (by norm_num)
  calc checksum32 l < 2 ^ 32 := h
    _ ≤ 256 ^ 4 := by norm_num

theorem decode_encode_aux (key val : List Nat) (vs ts : Nat)
    (hts : ts < 2 ^ 64) (hk : key.length < 2 ^ 64) (hvs : vs < 2 ^ 64)
    (hlen : val.length = if vs = tombstoneSentinel then 0 else vs) :
    decode (leBytes 4 (checksum32 (leBytes 8 ts ++ (leBytes 4 entryVersion ++
        (leBytes 8 key.length ++ (leBytes 8 vs ++ (key ++ val)))))) ++
      (leBytes 8 ts ++ (leBytes 4 entryVersion ++
        (leBytes 8 key.length ++ (leBytes 8 vs ++ (key ++ val)))))) =
    some (key, if vs = tombstoneSentinel then none else some val, ts) := by
  have h256 : (256 : Nat) ^ 8 = 2 ^ 64 := by norm_num
  have h1 : ts < 256 ^ 8 := by omega
  have h2 : key.length < 256 ^ 8 := by omega
  have h3 : vs < 256 ^ 8 := by omega
  have hver : entryVersion < 256 ^ 4 := by norm_num [entryVersion]
  have hlen32 : 32 ≤ (leBytes 4 (checksum32 (leBytes 8 ts ++ (leBytes 4 entryVersion ++
      (leBytes 8 key.length ++ (leBytes 8 vs ++ (key ++ val)))))) ++
      (leBytes 8 ts ++ (leBytes 4 entryVersion ++
        (leBytes 8 key.length ++ (leBytes 8 vs ++ (key ++ val)))))).length := by
    simp [List.length_append, leBytes_length]
    omega
  rw [decode, if_pos hlen32]
  simp only [List.take_left' (leBytes_length 4 _), List.drop_left' (leBytes_length 4 _),
    List.take_left' (leBytes_length 8 ts), List.drop_left' (leBytes_length 8 ts),
    List.take_left' (leBytes_length 4 entryVersion),
    List.drop_left' (leBytes_length 4 entryVersion),
    List.take_left' (leBytes_length 8 key.length),
    List.drop_left' (leBytes_length 8 key.length),
    List.take_left' (leBytes_length 8 vs), List.drop_left' (leBytes_length 8 vs),
    fromLE_leBytes 4 _ (checksum32_lt _), fromLE_leBytes 8 ts h1,
    fromLE_leBytes 4 entryVersion hver, fromLE_leBytes 8 key.length h2,
    fromLE_leBytes 8 vs h3]
  rw [if_pos (by simp [hlen])]
  rw [List.take_left, List.drop_left]

/-- C7 (spec-modelled codec): entry round-trip — for all keys and
values, including zero-length and maximum-size values (any length up
to the tombstone sentinel, the largest encodable), tombstones included,
and any 64-bit timestamp, decoding the encoding returns exactly the
original key, value-or-tombstone and timestamp. -/
theorem encode_decode_roundtrip (key : List Nat) (value : Option (List Nat)) (ts : Nat)
    (hts : ts < 2 ^ 64) (hk : key.length < 2 ^ 64)
    (hv : ∀ v, value = some v → v.length < tombstoneSentinel) :
    decode (encode key value ts) = some (key, value, ts) := by
  cases value with
  | none =>
    have hB : entryBody key none ts =
        leBytes 8 ts ++ (leBytes 4 entryVersion ++
          (leBytes 8 key.length ++ (leBytes 8 tombstoneSentinel ++ (key ++ [])))) := by
      simp [entryBody, List.append_assoc]
    have := decode_encode_aux key [] tombstoneSentinel ts hts hk
      (by norm_num [tombstoneSentinel]) (by simp)
    rw [encode, hB]
    simpa using this
  | some v =>
    have hvlen : v.length < tombstoneSentinel := hv v rfl
    have hne : ¬(v.length = tombstoneSentinel) := by omega
    have hB : entryBody key (some v) ts =
        leBytes 8 ts ++ (leBytes 4 entryVersion ++
          (leBytes 8 key.length ++ (leBytes 8 v.length ++ (key ++ v)))) := by
      simp [entryBody, List.append_assoc]
    have := decode_encode_aux key v v.length ts hts hk
      (by simp [tombstoneSentinel] at hvlen ⊢; omega) (by simp [hne])
    rw [encode, hB]
    simpa [hne] using this

/-- Witness for C7: a concrete entry, and a concrete tombstone,
round-trip. -/
theorem encode_decode_roundtrip_witness :
    decode (encode [1, 2] (some [3]) 5) = some ([1, 2], some [3], 5) ∧
    decode (encode [9] none 7) = some ([9], none, 7) :=
  ⟨encode_decode_roundtrip [1, 2] (some [3]) 5 (by norm_num) (by norm_num)
      (fun v hv => by cases hv; norm_num [tombstoneSentinel]),
    encode_decode_roundtrip [9] none 7 (by norm_num) (by norm_num)
      (fun v hv => by cases hv)⟩

end Ignite
